import Mathlib

/-!
Verification of the AAG_Controller autograder-feedback pipeline
(src/control_code.py and src/prompt_store.py) against its design
specification.  The Python source is shallowly embedded: pure string
helpers become Lean functions on `String` / `List Char`, the SQLite
tables become lists of row structures, and the external effects
(HTTP call, codecs, filesystem) become explicit oracle inputs.
-/

/- ───────────────────── Score Detector (control_code.py 74-79) ──────────── -/

/-- Python `\s` on the ASCII range: space, tab, newline, carriage return,
vertical tab, form feed. -/
def isPySpace (c : Char) : Bool :=
  c = ' ' || c = '\t' || c = '\n' || c = '\r' || c = Char.ofNat 11 || c = Char.ofNat 12

/-- Python `\d` on the ASCII range. -/
def isDigitC (c : Char) : Bool :=
  '0' ≤ c && c ≤ '9'

/-- Case-insensitive character comparison, as `re.I` applies to the ASCII
letters of the literal "Points". -/
def lcEq (a b : Char) : Bool :=
  a.toLower = b.toLower

/-- Match a literal case-insensitively at the head of the input, returning
the rest of the input on success. -/
def matchLitCI : List Char → List Char → Option (List Char)
  | [], s => some s
  | _ :: _, [] => none
  | l :: ls, c :: cs => if lcEq l c then matchLitCI ls cs else none

/-- Does `needle` occur at the head of `hay`? (case-sensitive) -/
def startsWithL : List Char → List Char → Bool
  | _, [] => true
  | [], _ :: _ => false
  | c :: cs, d :: ds => c = d && startsWithL cs ds

/-- Python `needle in hay` substring test (case-sensitive). -/
def containsL (needle : List Char) : List Char → Bool
  | [] => startsWithL [] needle
  | c :: cs => startsWithL (c :: cs) needle || containsL needle cs

/-- Attempt to match the regular expression `Points\s+(\d+)\s*/\s*(\d+)`
(with `re.I`) anchored at the head of the input, returning the two captured
digit groups.  Because `\s`, `\d` and `/` are pairwise disjoint character
classes, greedy maximal-munch matching coincides with the backtracking
semantics of Python's `re`. -/
def matchPointsAt (s : List Char) : Option (List Char × List Char) :=
  match matchLitCI "Points".data s with
  | none => none
  | some r1 =>
    let ws1 := r1.span isPySpace
    if ws1.1.isEmpty then none else
    let d1 := ws1.2.span isDigitC
    if d1.1.isEmpty then none else
    let ws2 := d1.2.span isPySpace
    match ws2.2 with
    | '/' :: r5 =>
      let ws3 := r5.span isPySpace
      let d2 := ws3.2.span isDigitC
      if d2.1.isEmpty then none else some (d1.1, d2.1)
    | _ => none

/-- Leftmost match of the pattern, as computed by `re.search`: try every
start position from the left, return the first success. -/
def searchPoints : List Char → Option (List Char × List Char)
  | [] => none
  | c :: cs =>
    match matchPointsAt (c :: cs) with
    | some r => some r
    | none => searchPoints cs

/-- Embedding of `is_perfect_score` (control_code.py 74-79): the text
contains the exact-case marker "All tests passed", or the leftmost match of
`Points\s+(\d+)\s*/\s*(\d+)` (case-insensitive) has its two captured digit
strings equal (Python compares `m.group(1) == m.group(2)` as strings). -/
def is_perfect_score (text : String) : Bool :=
  containsL "All tests passed".data text.data ||
    (match searchPoints text.data with
     | some g => g.1 = g.2
     | none => false)

/-- The Score Detector as the claim words it: true when the text contains
"All tests passed", or when the pattern occurs anywhere in the text with the
two captured numbers numerically equal.  Kept separate from
`is_perfect_score` so the two can be compared. -/
def digitsToNat (ds : List Char) : Nat :=
  ds.foldl (fun n c => n * 10 + (c.toNat - 48)) 0

/-- Does some position of the text carry a pattern match whose two groups
are numerically equal? (the claim's existential, value-based reading) -/
def anyPointsNumEq : List Char → Bool
  | [] => false
  | c :: cs =>
    (match matchPointsAt (c :: cs) with
     | some g => digitsToNat g.1 = digitsToNat g.2
     | none => false) || anyPointsNumEq cs

/-- Score Detector as specified by the claim (numeric comparison,
existential over occurrences). -/
def is_perfect_score_claim (text : String) : Bool :=
  containsL "All tests passed".data text.data || anyPointsNumEq text.data

example : is_perfect_score "All tests passed" = true := by decide
example : is_perfect_score "Points 7/7" = true := by decide
example : is_perfect_score "xx Points 7 / 7 yy" = true := by decide
example : is_perfect_score "Points 5/7" = false := by decide
example : is_perfect_score "" = false := by decide
example : is_perfect_score "Points 07/7" = false := by decide
example : is_perfect_score_claim "Points 07/7" = true := by decide
example : is_perfect_score "Points 27/7 Points 7/7" = false := by decide
example : containsL "Points 7/7".data "Points 27/7 Points 7/7".data = true := by decide
/-- Any list is a substring of itself extended on both sides. -/
theorem startsWithL_append (xs ys : List Char) : startsWithL (xs ++ ys) xs = true := by
  induction xs with
  | nil => cases ys <;> rfl
  | cons c cs ih => simp [startsWithL, ih]

theorem containsL_nil (l : List Char) : containsL [] l = true := by
  cases l <;> rfl

theorem containsL_of_middle (needle pre post : List Char) :
    containsL needle (pre ++ needle ++ post) = true := by
  induction pre with
  | nil =>
    rw [List.nil_append]
    cases needle with
    | nil => exact containsL_nil post
    | cons n ns =>
      have h := startsWithL_append (n :: ns) post
      simp only [List.cons_append] at h
      simp [containsL, h]
  | cons c pre ih =>
    simp only [List.cons_append, containsL]
    have ih' : containsL needle ((pre.append needle).append post) = true := ih
    rw [ih']
    exact Bool.or_true _

/-- Texts containing the marker are classified as perfect. -/
theorem is_perfect_of_marker (s : String)
    (h : containsL "All tests passed".data s.data = true) :
    is_perfect_score s = true := by
  simp [is_perfect_score, h]

/-- Texts whose leftmost pattern match has equal digit groups are perfect. -/
theorem is_perfect_of_search (s : String) (g : List Char × List Char)
    (h : searchPoints s.data = some g) (h2 : g.1 = g.2) :
    is_perfect_score s = true := by
  simp [is_perfect_score, h, h2]

/-- C1 (counterexample): the claim's reading of the Score Detector — the
"Points X / Y" pattern anywhere in the text with X *numerically* equal to Y
— is refuted by the code.  "Points 07/7" has a numerically equal match yet
`is_perfect_score` returns false (the groups are compared as digit strings),
and "Points 27/7 Points 7/7" contains the literal "Points 7/7" yet returns
false (only the leftmost match is examined). -/
theorem is_perfect_score_claim_cex :
    is_perfect_score "Points 07/7" = false ∧
    is_perfect_score_claim "Points 07/7" = true ∧
    is_perfect_score "Points 27/7 Points 7/7" = false ∧
    containsL "Points 7/7".data "Points 27/7 Points 7/7".data = true := by
  decide

/-- C1 (amended): `is_perfect_score` returns true for every text containing
the exact-case marker "All tests passed"; it returns true whenever the
leftmost match of `Points\s+(\d+)\s*/\s*(\d+)` has its two captured digit
strings equal; and on the claim's concrete examples it returns true for
"Points 7/7" and "Points 7 / 7", false for "Points 5/7" and the empty
string. -/
theorem is_perfect_score_amended :
    (∀ pre post : List Char,
       is_perfect_score ⟨pre ++ "All tests passed".data ++ post⟩ = true) ∧
    (∀ (s : String) (g : List Char × List Char),
       searchPoints s.data = some g → g.1 = g.2 → is_perfect_score s = true) ∧
    is_perfect_score "Points 7/7" = true ∧
    is_perfect_score "Points 7 / 7" = true ∧
    is_perfect_score "Points 5/7" = false ∧
    is_perfect_score "" = false := by
  refine ⟨?_, ?_, by decide, by decide, by decide, by decide⟩
  · intro pre post
    exact is_perfect_of_marker _ (containsL_of_middle "All tests passed".data pre post)
  · intro s g h h2
    exact is_perfect_of_search s g h h2

/-- C1 (witness): the amended theorem applied at concrete inputs. -/
theorem is_perfect_score_amended_witness :
    is_perfect_score ⟨"xy".data ++ "All tests passed".data ++ "z".data⟩ = true ∧
    is_perfect_score "Points 7/7" = true :=
  ⟨is_perfect_score_amended.1 "xy".data "z".data,
   is_perfect_score_amended.2.1 "Points 7/7" ⟨"7".data, "7".data⟩ rfl rfl⟩

/-- C9: the two heuristics differ in case sensitivity — the substring check
matches only the exact casing "All tests passed" (the all-lower-case variant
yields false), while the "Points X / Y" pattern is matched case-insensitively
("points 7/7" and "POINTS 7/7" both yield true). -/
theorem score_detector_case_sensitivity :
    is_perfect_score "all tests passed" = false ∧
    is_perfect_score "points 7/7" = true ∧
    is_perfect_score "POINTS 7/7" = true := by
  decide

/- ───────────────────── read_file (control_code.py 50-57) ───────────────── -/

/-- A file's raw bytes, abstracted by the results of the two decoding
attempts the code performs: `path.read_text(encoding="utf-8")` and
`path.read_text(encoding="ISO-8859-1")`, each either a decoded string or a
UnicodeDecodeError (`none`).  The codecs themselves live in the Python
standard library, outside this repository, so they enter the model as
oracle inputs. -/
structure RawFile where
  utf8 : Option String
  latin1 : Option String
deriving DecidableEq

/-- Result of `read_file`: the content returned, and whether the
"could not decode" warning was printed. -/
structure DecodedFile where
  content : String
  warned : Bool
deriving DecidableEq

/-- Embedding of `read_file` (control_code.py 50-57): try utf-8, then
ISO-8859-1; if both raise UnicodeDecodeError, print a warning and return
the empty string.  The function always returns — it never aborts the run. -/
def read_file (f : RawFile) : DecodedFile :=
  match f.utf8 with
  | some s => ⟨s, false⟩
  | none =>
    match f.latin1 with
    | some s => ⟨s, false⟩
    | none => ⟨"", true⟩

/-- C8: decoding is attempted with UTF-8 first, then the Latin-1 fallback;
if both attempts fail with a decode error the content is the empty string
and a warning is printed, and `read_file` still returns normally (the run
is not aborted). -/
theorem read_file_fallback (f : RawFile) :
    (∀ s, f.utf8 = some s → read_file f = ⟨s, false⟩) ∧
    (∀ s, f.utf8 = none → f.latin1 = some s → read_file f = ⟨s, false⟩) ∧
    (f.utf8 = none → f.latin1 = none → read_file f = ⟨"", true⟩) := by
  refine ⟨?_, ?_, ?_⟩
  · intro s h; simp [read_file, h]
  · intro s h h2; simp [read_file, h, h2]
  · intro h h2; simp [read_file, h, h2]

/-- C8 (witness): the fallback theorem at concrete decode results. -/
theorem read_file_fallback_witness :
    read_file ⟨none, none⟩ = ⟨"", true⟩ ∧
    read_file ⟨some "a", none⟩ = ⟨"a", false⟩ ∧
    read_file ⟨none, some "b"⟩ = ⟨"b", false⟩ :=
  ⟨(read_file_fallback ⟨none, none⟩).2.2 rfl rfl,
   (read_file_fallback ⟨some "a", none⟩).1 "a" rfl,
   (read_file_fallback ⟨none, some "b"⟩).2.1 "b" rfl rfl⟩

/- ──────────────── Student-code blob (control_code.py 98-101) ───────────── -/

/-- Embedding of the blob-building loop (control_code.py 98-101): for each
collected file, append a header line naming its path relative to the root,
then its decoded content, then a blank separator. -/
def student_code_blob : List (String × String) → String
  | [] => ""
  | (rel, content) :: rest =>
    "File: " ++ rel ++ "\n" ++ content ++ "\n\n" ++ student_code_blob rest

/-- The header line contributed for a relative path. -/
def headerLine (rel : String) : List Char :=
  "File: ".data ++ rel.data

/-- Split a character sequence into its lines (separator `'\n'`, Python
`str.split("\n")` semantics: a trailing newline yields a final empty
line). -/
def splitNl : List Char → List (List Char)
  | [] => [[]]
  | c :: cs =>
    if c = '\n' then [] :: splitNl cs
    else
      match splitNl cs with
      | [] => [[c]]
      | l :: ls => (c :: l) :: ls

theorem splitNl_ne_nil : ∀ s : List Char, splitNl s ≠ []
  | [] => by simp [splitNl]
  | c :: cs => by
    by_cases hc : c = '\n'
    · simp [splitNl, hc]
    · cases h : splitNl cs with
      | nil => simp [splitNl, hc, h]
      | cons l ls => simp [splitNl, hc, h]

theorem splitNl_cons_nl (w : List Char) : splitNl ('\n' :: w) = [] :: splitNl w := by
  simp [splitNl]

theorem splitNl_cons_of_ne (c : Char) (w : List Char) (hc : c ≠ '\n') :
    splitNl (c :: w) =
      match splitNl w with
      | [] => [[c]]
      | l :: ls => (c :: l) :: ls := by
  simp [splitNl, hc]

theorem splitNl_append_nl : ∀ x y : List Char, splitNl (x ++ '\n' :: y) = splitNl x ++ splitNl y
  | [], y => by
    rw [List.nil_append, splitNl_cons_nl]
    rfl
  | c :: cs, y => by
    by_cases hc : c = '\n'
    · subst hc
      rw [List.cons_append, splitNl_cons_nl, splitNl_cons_nl, splitNl_append_nl cs y,
        List.cons_append]
    · cases h : splitNl cs with
      | nil => exact absurd h (splitNl_ne_nil cs)
      | cons l ls =>
        have hrec := splitNl_append_nl cs y
        rw [h, List.cons_append] at hrec
        rw [List.cons_append, splitNl_cons_of_ne c _ hc, splitNl_cons_of_ne c cs hc, hrec, h]
        rfl

theorem splitNl_no_nl : ∀ x : List Char, (∀ c ∈ x, c ≠ '\n') → splitNl x = [x]
  | [], _ => rfl
  | c :: cs, h => by
    have hc : c ≠ '\n' := h c (List.mem_cons_self c cs)
    simp only [splitNl, if_neg hc]
    rw [splitNl_no_nl cs (fun d hd => h d (List.mem_cons_of_mem c hd))]

/-- The lines one file contributes to the blob: its header, its content's
lines, and the empty line from the blank separator. -/
def blobChunk (rc : String × String) : List (List Char) :=
  headerLine rc.1 :: splitNl (rc.2 : String).data ++ [[]]

/-- The line decomposition the blob construction induces. -/
def blobLines (files : List (String × String)) : List (List Char) :=
  (files.map blobChunk).flatten ++ [[]]

/-- The blob as a character list, structured for line splitting. -/
def blobData : List (String × String) → List Char
  | [] => []
  | (rel, content) :: rest =>
    headerLine rel ++ '\n' :: (content.data ++ '\n' :: '\n' :: blobData rest)

theorem student_code_blob_data :
    ∀ files : List (String × String), (student_code_blob files).data = blobData files
  | [] => rfl
  | (rel, content) :: rest => by
    have h1 : ("\n" : String).data = ['\n'] := rfl
    have h2 : ("\n\n" : String).data = ['\n', '\n'] := rfl
    simp only [student_code_blob, String.data_append, blobData, headerLine, h1, h2,
      student_code_blob_data rest]
    simp [List.append_assoc]

theorem headerLine_no_nl (rel : String) (h : ∀ c ∈ rel.data, c ≠ '\n') :
    ∀ c ∈ headerLine rel, c ≠ '\n' := by
  intro c hc
  have hpre : ("File: " : String).data = ['F', 'i', 'l', 'e', ':', ' '] := rfl
  rcases List.mem_append.mp hc with h1 | h1
  · rw [hpre] at h1
    simp only [List.mem_cons, List.not_mem_nil, or_false] at h1
    rcases h1 with rfl | rfl | rfl | rfl | rfl | rfl <;> decide
  · exact h c h1

theorem headerLine_ne_nil (rel : String) : headerLine rel ≠ [] := by
  simp [headerLine]

theorem headerLine_inj {a b : String} (h : headerLine a = headerLine b) : a = b := by
  have hd : a.data = b.data := List.append_cancel_left h
  cases a
  cases b
  exact congrArg String.mk hd

/-- Splitting the blob yields exactly the per-file chunks, in file order,
followed by the final empty line. -/
theorem splitNl_blobData (files : List (String × String))
    (hrel : ∀ rc ∈ files, ∀ c ∈ (rc.1 : String).data, c ≠ '\n') :
    splitNl (blobData files) = blobLines files := by
  induction files with
  | nil => rfl
  | cons rc rest ih =>
    obtain ⟨rel, content⟩ := rc
    have hhd : ∀ c ∈ headerLine rel, c ≠ '\n' :=
      headerLine_no_nl rel (hrel (rel, content) (List.mem_cons_self _ _))
    simp only [blobData]
    rw [splitNl_append_nl (headerLine rel) _]
    rw [splitNl_append_nl content.data ('\n' :: blobData rest)]
    rw [splitNl_no_nl (headerLine rel) hhd]
    have hstep : splitNl ('\n' :: blobData rest) = [] :: splitNl (blobData rest) := by
      simp [splitNl]
    rw [hstep, ih (fun rc2 hm => hrel rc2 (List.mem_cons_of_mem _ hm))]
    simp [blobLines, blobChunk, List.append_assoc]

/-- A member of a duplicate-free list of lines is counted exactly once. -/
theorem count_eq_one_of_nodup_mem {a : List Char} {l : List (List Char)}
    (hnd : l.Nodup) (ha : a ∈ l) : List.count a l = 1 := by
  induction l with
  | nil => cases ha
  | cons b bs ih =>
    rw [List.count_cons]
    rcases List.mem_cons.mp ha with rfl | hmem
    · have hnotin : a ∉ bs := (List.nodup_cons.mp hnd).1
      rw [List.count_eq_zero.mpr hnotin]
      simp
    · have hne : b ≠ a := by
        rintro rfl
        exact (List.nodup_cons.mp hnd).1 hmem
      rw [ih (List.nodup_cons.mp hnd).2 hmem]
      simp [hne]

/-- Is this line the header line of one of the given files? -/
def isHeaderOf (files : List (String × String)) (l : List Char) : Bool :=
  files.any fun rc => l = headerLine rc.1

theorem isHeaderOf_false_of (files : List (String × String)) (l : List Char)
    (h : ∀ rc ∈ files, l ≠ headerLine rc.1) : isHeaderOf files l = false := by
  simp only [isHeaderOf, List.any_eq_false]
  intro rc hrc
  simp [h rc hrc]

/-- Filtering the chunk lines for header lines keeps exactly one header per
file, in file order. -/
theorem filter_blobChunks (all : List (String × String)) :
    ∀ fs : List (String × String),
      (∀ rc ∈ fs, ∀ rc2 ∈ all, headerLine rc2.1 ∉ splitNl (rc.2 : String).data) →
      (∀ rc ∈ fs, isHeaderOf all (headerLine rc.1) = true) →
      ((fs.map blobChunk).flatten.filter (isHeaderOf all)) =
        fs.map fun rc => headerLine rc.1 := by
  intro fs
  induction fs with
  | nil =>
    intro _ _
    rfl
  | cons rc rest ih =>
    intro hclean hmem
    have hcontent : List.filter (isHeaderOf all) (splitNl (rc.2 : String).data) = [] := by
      refine List.filter_eq_nil_iff.mpr ?_
      intro l hl
      have : isHeaderOf all l = false := by
        refine isHeaderOf_false_of all l ?_
        intro rc2 hrc2 heq
        exact hclean rc (List.mem_cons_self _ _) rc2 hrc2 (heq ▸ hl)
      simp [this]
    have hblank : isHeaderOf all [] = false := by
      refine isHeaderOf_false_of all [] ?_
      intro rc2 _ heq
      exact headerLine_ne_nil rc2.1 heq.symm
    have hblankf : List.filter (isHeaderOf all) [[]] = [] := by
      rw [List.filter_cons_of_neg (by simp [hblank])]
      rfl
    have hchunk : List.filter (isHeaderOf all) (blobChunk rc) = [headerLine rc.1] := by
      show List.filter (isHeaderOf all)
          (headerLine rc.1 :: (splitNl (rc.2 : String).data ++ [[]])) = _
      rw [List.filter_cons_of_pos (hmem rc (List.mem_cons_self _ _)), List.filter_append,
        hcontent, hblankf]
      rfl
    rw [List.map_cons, List.flatten_cons, List.filter_append, hchunk,
      ih (fun a ha => hclean a (List.mem_cons_of_mem _ ha))
         (fun a ha => hmem a (List.mem_cons_of_mem _ ha)), List.map_cons]
    rfl

/-- C7 (counterexample): the claim that each file's header line occurs in
the blob exactly once fails when a file's content itself contains a header
line: with files a.txt (whose content is the line "File: b.txt") and b.txt,
the header line of b.txt occurs twice among the blob's lines. -/
theorem blob_header_exactly_once_cex :
    List.count (headerLine "b.txt")
        (splitNl (student_code_blob [("a.txt", "File: b.txt"), ("b.txt", "y")]).data) = 2 := by
  decide

/-- C7 (amended): for every non-empty list of discovered files whose
relative paths are newline-free and distinct, and in which no file content
contains a line equal to some file's header line, the blob's lines are
exactly (in order) each file's header followed by that file's content lines
and a blank separator; the lines that are header lines are precisely the
files' headers in file (path-sorted) order; and each file's header line
occurs exactly once. -/
theorem blob_header_lines (files : List (String × String))
    (hne : files ≠ [])
    (hrel : ∀ rc ∈ files, ∀ c ∈ (rc.1 : String).data, c ≠ '\n')
    (hnd : (files.map Prod.fst).Nodup)
    (hclean : ∀ rc ∈ files, ∀ rc2 ∈ files, headerLine rc2.1 ∉ splitNl (rc.2 : String).data) :
    splitNl (student_code_blob files).data = blobLines files ∧
    (splitNl (student_code_blob files).data).filter (isHeaderOf files) =
      (files.map fun rc => headerLine rc.1) ∧
    ∀ rc ∈ files, List.count (headerLine rc.1) (splitNl (student_code_blob files).data) = 1 := by
  have hlines : splitNl (student_code_blob files).data = blobLines files := by
    rw [student_code_blob_data]
    exact splitNl_blobData files hrel
  have hmem : ∀ rc ∈ files, isHeaderOf files (headerLine rc.1) = true := by
    intro rc hrc
    simp only [isHeaderOf, List.any_eq_true]
    exact ⟨rc, hrc, by simp⟩
  have hblank : isHeaderOf files [] = false := by
    refine isHeaderOf_false_of files [] ?_
    intro rc2 _ heq
    exact headerLine_ne_nil rc2.1 heq.symm
  have hfilter : (splitNl (student_code_blob files).data).filter (isHeaderOf files) =
      files.map fun rc => headerLine rc.1 := by
    rw [hlines]
    simp only [blobLines, List.filter_append]
    rw [filter_blobChunks files files hclean hmem]
    simp [List.filter, hblank]
  refine ⟨hlines, hfilter, ?_⟩
  intro rc hrc
  have hcount : List.count (headerLine rc.1)
        (List.filter (isHeaderOf files) (splitNl (student_code_blob files).data)) =
      List.count (headerLine rc.1) (splitNl (student_code_blob files).data) :=
    List.count_filter (hmem rc hrc)
  rw [hfilter] at hcount
  rw [← hcount]
  have hmap : (files.map fun rc2 => headerLine rc2.1) =
      (files.map Prod.fst).map headerLine := by
    simp [List.map_map]
  rw [hmap]
  have hnd2 : ((files.map Prod.fst).map headerLine).Nodup :=
    hnd.map fun a b => fun h => headerLine_inj h
  have hin : headerLine rc.1 ∈ (files.map Prod.fst).map headerLine := by
    refine List.mem_map.mpr ⟨rc.1, List.mem_map.mpr ⟨rc, hrc, rfl⟩, rfl⟩
  exact count_eq_one_of_nodup_mem hnd2 hin

/-- C7 (witness): the amended theorem at two concrete files. -/
theorem blob_header_lines_witness :
    (splitNl (student_code_blob [("a.txt", "x"), ("b.txt", "y")]).data).filter
        (isHeaderOf [("a.txt", "x"), ("b.txt", "y")]) =
      [headerLine "a.txt", headerLine "b.txt"] ∧
    List.count (headerLine "a.txt")
        (splitNl (student_code_blob [("a.txt", "x"), ("b.txt", "y")]).data) = 1 :=
  ⟨(blob_header_lines [("a.txt", "x"), ("b.txt", "y")] (by decide) (by decide) (by decide)
      (by decide)).2.1,
   (blob_header_lines [("a.txt", "x"), ("b.txt", "y")] (by decide) (by decide) (by decide)
      (by decide)).2.2 ("a.txt", "x") (by decide)⟩

/- ───────────────── Persistence Writer (control_code.py 179-217) ────────── -/

/-- Row of the `submissions` table (INSERT at control_code.py 181-186). -/
structure SubmissionRow where
  id : Nat
  student_repo : String
  assignment_id : Nat
  code : String
  submitted_at : String
deriving DecidableEq

/-- Row of the `code_files` table (INSERT at control_code.py 190-194). -/
structure CodeFileRow where
  submission_id : Nat
  filename : String
  code : String
deriving DecidableEq

/-- Row of the `autograder_outputs` table (INSERT at control_code.py
197-201). -/
structure AutograderOutputRow where
  submission_id : Nat
  output : String
  generated_at : String
deriving DecidableEq

/-- Row of the `feedback` table.  Modelled from the spec: the table-creation
statements are absent from src/, so the columns beyond those named in the
INSERT at control_code.py 204-209 follow §3 of the spec — a reviewed flag
defaulting to false, and teacher comments plus a reviewed timestamp written
later by the external human-review workflow (NULL comments are `none`). -/
structure FeedbackRow where
  submission_id : Nat
  repo_name : String
  feedback_text : String
  generated_at : String
  reviewed : Bool
  teacher_comments : Option String
  reviewed_at : Nat
deriving DecidableEq

/-- The committed state of the four tables. -/
structure DBState where
  submissions : List SubmissionRow
  code_files : List CodeFileRow
  autograder_outputs : List AutograderOutputRow
  feedback : List FeedbackRow
deriving DecidableEq

/-- Outcome of the insert section: the committed table state afterwards,
whether the run ended in the fatal `err` path, and whether `conn.close()`
ran (the `finally` block). -/
structure InsertOutcome where
  db : DBState
  fatalError : Bool
  connClosed : Bool
deriving DecidableEq

/-- The `code_files` loop (control_code.py 190-194).  `sqlFail` is the
oracle saying which numbered SQL statement of the section raises
`sqlite3.Error`; `k` is the number of the next statement.  Returns the rows
the loop staged and the next statement number, or `none` if a statement
raised. -/
def insertFilesLoop (sqlFail : Nat → Bool) (sid : Nat) :
    Nat → List (String × String) → List CodeFileRow → Option (List CodeFileRow × Nat)
  | k, [], acc => some (acc, k)
  | k, (fn, c) :: rest, acc =>
    if sqlFail k then none
    else insertFilesLoop sqlFail sid (k + 1) rest (acc ++ [⟨sid, fn, c⟩])

/-- Embedding of the insert section of `main` (control_code.py 179-217):
statement 0 inserts the submissions row (`lastrowid` becomes the new
surrogate key), statements 1..n insert one code_files row per collected
file, then the autograder_outputs row, the feedback row, and `conn.commit()`.
Any `sqlite3.Error` is caught, the transaction rolled back (the committed
state stays `db0`), `err` exits non-zero, and the `finally` block closes the
connection on every path. -/
def runInsertSection (sqlFail : Nat → Bool) (db0 : DBState) (repo : String)
    (blob : String) (files : List (String × String)) (auto fbText ts : String) :
    InsertOutcome :=
  if sqlFail 0 then ⟨db0, true, true⟩
  else
    let sid := db0.submissions.length + 1
    match insertFilesLoop sqlFail sid 1 files [] with
    | none => ⟨db0, true, true⟩
    | some (cfRows, k) =>
      if sqlFail k then ⟨db0, true, true⟩
      else if sqlFail (k + 1) then ⟨db0, true, true⟩
      else if sqlFail (k + 2) then ⟨db0, true, true⟩
      else
        ⟨⟨db0.submissions ++ [⟨sid, repo, 101, blob, ts⟩],
          db0.code_files ++ cfRows,
          db0.autograder_outputs ++ [⟨sid, auto, ts⟩],
          db0.feedback ++ [⟨sid, repo, fbText, ts, false, none, 0⟩]⟩, false, true⟩

/-- Inversion of the file loop: when it completes, the next statement
number advanced by one per file and none of the loop's statements failed. -/
theorem insertFilesLoop_some (sqlFail : Nat → Bool) (sid : Nat) :
    ∀ (files : List (String × String)) (k : Nat) (acc acc' : List CodeFileRow) (kf : Nat),
      insertFilesLoop sqlFail sid k files acc = some (acc', kf) →
      kf = k + files.length ∧ ∀ j, j < files.length → sqlFail (k + j) = false := by
  intro files
  induction files with
  | nil =>
    intro k acc acc' kf h
    simp only [insertFilesLoop, Option.some.injEq, Prod.mk.injEq] at h
    obtain ⟨-, h2⟩ := h
    refine ⟨by simp [← h2], ?_⟩
    intro j hj
    simp at hj
  | cons fc rest ih =>
    intro k acc acc' kf h
    obtain ⟨fn, c⟩ := fc
    by_cases hk : sqlFail k = true
    · simp [insertFilesLoop, hk] at h
    · have hk' : sqlFail k = false := by
        cases hkk : sqlFail k
        · rfl
        · exact absurd hkk hk
      simp only [insertFilesLoop, hk', if_false, Bool.false_eq_true] at h
      obtain ⟨h1, h2⟩ := ih (k + 1) (acc ++ [⟨sid, fn, c⟩]) acc' kf h
      refine ⟨?_, ?_⟩
      · rw [List.length_cons]
        omega
      · intro j hj
        rw [List.length_cons] at hj
        cases j with
        | zero => simpa using hk'
        | succ j' =>
          have := h2 j' (by omega)
          have he : k + 1 + j' = k + (j' + 1) := by omega
          rwa [he] at this

/-- If some statement of the file loop's range fails, the loop aborts. -/
theorem insertFilesLoop_none (sqlFail : Nat → Bool) (sid : Nat) :
    ∀ (files : List (String × String)) (k : Nat) (acc : List CodeFileRow) (j : Nat),
      j < files.length → sqlFail (k + j) = true →
      insertFilesLoop sqlFail sid k files acc = none := by
  intro files
  induction files with
  | nil =>
    intro k acc j hj
    simp at hj
  | cons fc rest ih =>
    intro k acc j hj hfail
    obtain ⟨fn, c⟩ := fc
    by_cases hk : sqlFail k = true
    · simp [insertFilesLoop, hk]
    · cases j with
      | zero =>
        rw [Nat.add_zero] at hfail
        exact absurd hfail hk
      | succ j' =>
        have hk' : sqlFail k = false := by
          cases hkk : sqlFail k
          · rfl
          · exact absurd hkk hk
        rw [List.length_cons] at hj
        simp only [insertFilesLoop, hk', if_false, Bool.false_eq_true]
        have he : k + (j' + 1) = k + 1 + j' := by omega
        rw [he] at hfail
        exact ih (k + 1) (acc ++ [⟨sid, fn, c⟩]) j' (by omega) hfail

/-- C2: the Persistence Writer's inserts form one transaction — if any of
the insert statements (submissions, one per code file, autograder_outputs,
feedback) raises, the whole sequence is rolled back so the committed tables
are exactly the pre-run state, the run is fatal, and the connection is
still closed by the `finally` block; no partially inserted state is
committed. -/
theorem persistence_rollback (sqlFail : Nat → Bool) (db0 : DBState)
    (repo blob auto fbText ts : String) (files : List (String × String))
    (h : ∃ k, k < files.length + 3 ∧ sqlFail k = true) :
    runInsertSection sqlFail db0 repo blob files auto fbText ts = ⟨db0, true, true⟩ := by
  obtain ⟨k, hk, hfail⟩ := h
  by_cases h0 : sqlFail 0 = true
  · simp [runInsertSection, h0]
  · have h0' : sqlFail 0 = false := by
      cases hkk : sqlFail 0
      · rfl
      · exact absurd hkk h0
    cases hloop : insertFilesLoop sqlFail (db0.submissions.length + 1) 1 files [] with
    | none => simp [runInsertSection, h0', hloop]
    | some pr =>
      obtain ⟨cfRows, kf⟩ := pr
      obtain ⟨hkf, hpass⟩ :=
        insertFilesLoop_some sqlFail (db0.submissions.length + 1) files 1 [] cfRows kf hloop
      by_cases ha : sqlFail kf = true
      · simp [runInsertSection, h0', hloop, ha]
      · by_cases hb : sqlFail (kf + 1) = true
        · simp [runInsertSection, h0', hloop, ha, hb]
        · exfalso
          have hcase : k = 0 ∨ (1 ≤ k ∧ k < 1 + files.length) ∨
              k = files.length + 1 ∨ k = files.length + 2 := by omega
          rcases hcase with h' | h' | h' | h'
          · rw [h'] at hfail
            rw [hfail] at h0'
            exact Bool.noConfusion h0'
          · have := hpass (k - 1) (by omega)
            have he : 1 + (k - 1) = k := by omega
            rw [he] at this
            rw [hfail] at this
            exact Bool.noConfusion this
          · apply ha
            rw [hkf]
            rw [show (1 : Nat) + files.length = files.length + 1 from by omega, ← h']
            exact hfail
          · apply hb
            rw [hkf]
            rw [show (1 : Nat) + files.length + 1 = files.length + 2 from by omega, ← h']
            exact hfail

/-- C2 (witness): a concrete run whose second statement (the only
code_files insert) fails rolls everything back over a non-empty initial
database. -/
theorem persistence_rollback_witness :
    runInsertSection (fun k => k = 1)
        ⟨[⟨1, "old", 101, "c", "t0"⟩], [], [], []⟩
        "repo42" "blob" [("a.txt", "x")] "auto" "fb" "ts" =
      ⟨⟨[⟨1, "old", 101, "c", "t0"⟩], [], [], []⟩, true, true⟩ :=
  persistence_rollback (fun k => k = 1)
    ⟨[⟨1, "old", 101, "c", "t0"⟩], [], [], []⟩
    "repo42" "blob" "auto" "fb" "ts" [("a.txt", "x")] ⟨1, by decide, by decide⟩

/- ───────────────── File Collector (control_code.py 89-96) ──────────────── -/

/-- One entry of the recursive directory listing that `rglob("*")` yields
under the student-code root: its path relative to the root (as components),
whether it is a regular file, and its decoded text. -/
structure FsEntry where
  path : List String
  isFile : Bool
  content : String
deriving DecidableEq

/-- Strict lexicographic order on character lists by code point — how
Python compares two strings. -/
def charListLt : List Char → List Char → Prop
  | [], [] => False
  | [], _ :: _ => True
  | _ :: _, [] => False
  | a :: as, b :: bs => a < b ∨ (a = b ∧ charListLt as bs)

def charListLtDec : (x y : List Char) → Decidable (charListLt x y)
  | [], [] => isFalse (fun h => h)
  | [], _ :: _ => isTrue trivial
  | _ :: _, [] => isFalse (fun h => h)
  | a :: as, b :: bs =>
    have : Decidable (charListLt as bs) := charListLtDec as bs
    inferInstanceAs (Decidable (a < b ∨ (a = b ∧ charListLt as bs)))

instance : DecidableRel charListLt := fun x y => charListLtDec x y

theorem charListLt_trichot : ∀ x y : List Char, charListLt x y ∨ x = y ∨ charListLt y x
  | [], [] => Or.inr (Or.inl rfl)
  | [], _ :: _ => Or.inl trivial
  | _ :: _, [] => Or.inr (Or.inr trivial)
  | a :: as, b :: bs => by
    rcases lt_trichotomy a b with h | h | h
    · exact Or.inl (Or.inl h)
    · rcases charListLt_trichot as bs with h2 | h2 | h2
      · exact Or.inl (Or.inr ⟨h, h2⟩)
      · exact Or.inr (Or.inl (by rw [h, h2]))
      · exact Or.inr (Or.inr (Or.inr ⟨h.symm, h2⟩))
    · exact Or.inr (Or.inr (Or.inl h))

theorem charListLt_trans :
    ∀ x y z : List Char, charListLt x y → charListLt y z → charListLt x z
  | [], [], _, h, _ => h.elim
  | [], _ :: _, [], _, h2 => h2.elim
  | [], _ :: _, _ :: _, _, _ => trivial
  | _ :: _, [], _, h, _ => h.elim
  | _ :: _, _ :: _, [], _, h2 => h2.elim
  | a :: as, b :: bs, c :: cs, h1, h2 => by
    rcases h1 with h1 | ⟨he1, h1'⟩ <;> rcases h2 with h2 | ⟨he2, h2'⟩
    · exact Or.inl (lt_trans h1 h2)
    · exact Or.inl (by rw [← he2]; exact h1)
    · exact Or.inl (by rw [he1]; exact h2)
    · exact Or.inr ⟨he1.trans he2, charListLt_trans as bs cs h1' h2'⟩

/-- Lexicographic order on paths-as-component-lists: how Python compares
`Path` values (tuple comparison of parts, each part an ordinary string). -/
def pathLe : List String → List String → Prop
  | [], _ => True
  | _ :: _, [] => False
  | a :: as, b :: bs => charListLt a.data b.data ∨ (a = b ∧ pathLe as bs)

def pathLeDec : (x y : List String) → Decidable (pathLe x y)
  | [], _ => isTrue trivial
  | _ :: _, [] => isFalse (fun h => h)
  | a :: as, b :: bs =>
    have : Decidable (pathLe as bs) := pathLeDec as bs
    inferInstanceAs (Decidable (charListLt a.data b.data ∨ (a = b ∧ pathLe as bs)))

instance : DecidableRel pathLe := fun x y => pathLeDec x y

theorem pathLe_total : ∀ x y : List String, pathLe x y ∨ pathLe y x
  | [], _ => Or.inl trivial
  | _ :: _, [] => Or.inr trivial
  | a :: as, b :: bs => by
    rcases charListLt_trichot a.data b.data with h | h | h
    · exact Or.inl (Or.inl h)
    · have hab : a = b := by
        cases a
        cases b
        exact congrArg String.mk h
      rcases pathLe_total as bs with h2 | h2
      · exact Or.inl (Or.inr ⟨hab, h2⟩)
      · exact Or.inr (Or.inr ⟨hab.symm, h2⟩)
    · exact Or.inr (Or.inl h)

theorem pathLe_trans : ∀ x y z : List String, pathLe x y → pathLe y z → pathLe x z
  | [], _, _, _, _ => trivial
  | _ :: _, [], _, h, _ => h.elim
  | _ :: _, _ :: _, [], _, h2 => h2.elim
  | a :: as, b :: bs, c :: cs, h1, h2 => by
    rcases h1 with h1 | ⟨he1, h1'⟩ <;> rcases h2 with h2 | ⟨he2, h2'⟩
    · exact Or.inl (charListLt_trans _ _ _ h1 h2)
    · exact Or.inl (by rw [← he2]; exact h1)
    · exact Or.inl (by rw [he1]; exact h2)
    · exact Or.inr ⟨he1.trans he2, pathLe_trans as bs cs h1' h2'⟩

/-- The sort key of the collector: compare entries by path. -/
def entryLe (a b : FsEntry) : Prop := pathLe a.path b.path

instance : DecidableRel entryLe := fun a b => pathLeDec a.path b.path

instance : IsTotal FsEntry entryLe := ⟨fun a b => pathLe_total a.path b.path⟩

instance : IsTrans FsEntry entryLe := ⟨fun a b c => pathLe_trans a.path b.path c.path⟩

/-- The filter `p.name.startswith(".")` (control_code.py 93): only the
entry's own final component is examined. -/
def hiddenEntry (e : FsEntry) : Bool :=
  match e.path.getLast? with
  | some n =>
    match n.data with
    | c :: _ => c = '.'
    | [] => false
  | none => false

/-- The entries the comprehension at control_code.py 91-94 keeps: regular
files whose own name does not start with a dot. -/
def visibleFiles (entries : List FsEntry) : List FsEntry :=
  entries.filter fun e => e.isFile && !hiddenEntry e

inductive CollectResult where
  | fatal : CollectResult
  | ok : List FsEntry → CollectResult
deriving DecidableEq

/-- Embedding of the File Collector (control_code.py 89-96): `err` (fatal,
non-zero exit) when the student-code root is not a directory; otherwise
sort the kept entries by path; `err` again when that list is empty
("No files found"). -/
def collectStudentFiles (dirOk : Bool) (entries : List FsEntry) : CollectResult :=
  if dirOk = false then CollectResult.fatal
  else
    let fs := List.insertionSort entryLe (visibleFiles entries)
    if fs.isEmpty then CollectResult.fatal else CollectResult.ok fs

/-- C5: the File Collector is fatal exactly when the root directory is
missing or no collectible file exists (a regular file is collectible when
its own name does not start with a dot — the check the code applies, and
the emptiness test runs after that filter); otherwise it returns precisely
the collectible files, sorted by path. -/
theorem collector_characterization (dirOk : Bool) (entries : List FsEntry) :
    (collectStudentFiles dirOk entries = CollectResult.fatal ↔
       dirOk = false ∨ visibleFiles entries = []) ∧
    (∀ l, collectStudentFiles dirOk entries = CollectResult.ok l →
       l.Perm (visibleFiles entries) ∧ List.Sorted entryLe l) := by
  cases dirOk with
  | false =>
    constructor
    · exact ⟨fun _ => Or.inl rfl, fun _ => rfl⟩
    · intro l h
      exact absurd h (by simp [collectStudentFiles])
  | true =>
    have hperm := List.perm_insertionSort entryLe (visibleFiles entries)
    by_cases hv : visibleFiles entries = []
    · rw [hv] at hperm
      have hempty : (List.insertionSort entryLe (visibleFiles entries)).isEmpty = true := by
        rw [List.isEmpty_iff, hv]
        rfl
      constructor
      · refine ⟨fun _ => Or.inr hv, fun _ => ?_⟩
        simp [collectStudentFiles, hempty]
      · intro l h
        rw [show collectStudentFiles true entries = CollectResult.fatal from by
              simp [collectStudentFiles, hempty]] at h
        exact absurd h (by simp)
    · have hempty : (List.insertionSort entryLe (visibleFiles entries)).isEmpty = false := by
        rw [List.isEmpty_eq_false_iff_exists_mem]
        obtain ⟨x, hx⟩ := List.exists_mem_of_ne_nil _ hv
        exact ⟨x, hperm.mem_iff.mpr hx⟩
      have hres : collectStudentFiles true entries =
          CollectResult.ok (List.insertionSort entryLe (visibleFiles entries)) := by
        simp [collectStudentFiles, hempty]
      constructor
      · rw [hres]
        constructor
        · intro h
          exact absurd h (by simp)
        · intro h
          rcases h with h | h
          · exact absurd h (by simp)
          · exact absurd h hv
      · intro l h
        rw [hres] at h
        have hl : l = List.insertionSort entryLe (visibleFiles entries) :=
          (CollectResult.ok.injEq _ _ ▸ h).symm
        rw [hl]
        exact ⟨hperm, List.sorted_insertionSort entryLe (visibleFiles entries)⟩

/-- C5 (witness): a concrete listing with a hidden file, a directory and
two visible files, collected and sorted. -/
theorem collector_characterization_witness :
    ([⟨["a.txt"], true, "x"⟩, ⟨["b.txt"], true, "y"⟩] : List FsEntry).Perm
        (visibleFiles [⟨["b.txt"], true, "y"⟩, ⟨["a.txt"], true, "x"⟩,
          ⟨[".hidden"], true, "h"⟩, ⟨["sub"], false, ""⟩]) ∧
      List.Sorted entryLe [⟨["a.txt"], true, "x"⟩, ⟨["b.txt"], true, "y"⟩] :=
  (collector_characterization true
      [⟨["b.txt"], true, "y"⟩, ⟨["a.txt"], true, "x"⟩,
       ⟨[".hidden"], true, "h"⟩, ⟨["sub"], false, ""⟩]).2
    [⟨["a.txt"], true, "x"⟩, ⟨["b.txt"], true, "y"⟩] (by decide)

/- ─────────────── Model Client failure ordering (control_code.py) ───────── -/

/-- Result of the back half of `main` (control_code.py 170-217): the
committed tables, whether the process exited via `err`, whether control
ever reached the insert section, whether `conn.close()` ran, and the
feedback markdown written (if any). -/
structure TailResult where
  db : DBState
  exitedWithError : Bool
  insertSectionReached : Bool
  connClosed : Bool
  feedback_md : Option String
deriving DecidableEq

/-- Embedding of `main` stages 4-6 (control_code.py 170-217).
`run_ollama` (lines 59-72) wraps the POST in `try/except Exception` and
calls `err` — a fatal non-zero exit — on any transport error, non-2xx
status (`raise_for_status`) or missing `response` field; the oracle
`ollamaResp` carries either the extracted response text or that failure.
On failure the process exits inside `run_ollama`: the feedback file is not
written, the insert section is never entered, and `conn.close()` is never
reached. -/
def mainTail (ollamaResp : Except String String) (sqlFail : Nat → Bool)
    (db0 : DBState) (repo blob auto ts : String)
    (files : List (String × String)) : TailResult :=
  match ollamaResp with
  | Except.error _ => ⟨db0, true, false, false, none⟩
  | Except.ok fbText =>
    let r := runInsertSection sqlFail db0 repo blob files auto fbText ts
    ⟨r.db, r.fatalError, true, r.connClosed,
     some ("# Feedback for " ++ repo ++ "\n\n" ++ fbText)⟩

/-- C3: if the model-endpoint call fails (network error, timeout, non-2xx
status or malformed response), the run terminates before the Persistence
Writer's insert section is ever reached, so the four tables keep exactly
their prior rows and no feedback file is written — the pipeline wrote
nothing for this invocation. -/
theorem ollama_failure_writes_nothing (ollamaResp : Except String String)
    (sqlFail : Nat → Bool) (db0 : DBState) (repo blob auto ts : String)
    (files : List (String × String)) (e : String)
    (h : ollamaResp = Except.error e) :
    mainTail ollamaResp sqlFail db0 repo blob auto ts files =
      ⟨db0, true, false, false, none⟩ := by
  subst h
  rfl

/-- C3 (witness): a concrete HTTP-500 failure against a populated database
leaves it untouched. -/
theorem ollama_failure_writes_nothing_witness :
    mainTail (Except.error "Ollama API error ⇒ 500 Server Error") (fun _ => false)
        ⟨[⟨1, "old", 101, "c", "t0"⟩], [], [], []⟩
        "repo42" "blob" "auto" "ts" [("a.txt", "x")] =
      ⟨⟨[⟨1, "old", 101, "c", "t0"⟩], [], [], []⟩, true, false, false, none⟩ :=
  ollama_failure_writes_nothing (Except.error "Ollama API error ⇒ 500 Server Error")
    (fun _ => false) ⟨[⟨1, "old", 101, "c", "t0"⟩], [], [], []⟩
    "repo42" "blob" "auto" "ts" [("a.txt", "x")]
    "Ollama API error ⇒ 500 Server Error" rfl

/- ───────────────── Prompt Store (prompt_store.py) and fallback ─────────── -/

/-- Python `str.strip()` restricted to the ASCII whitespace the prompt files
use: drop whitespace from both ends. -/
def pyStrip (s : String) : String :=
  ⟨((s.data.dropWhile isPySpace).reverse.dropWhile isPySpace).reverse⟩

/-- The prompt directory, abstracted as a partial map from filename to the
text of the regular file at `base / filename` (`none` when no regular file
resolves, the `path.is_file()` check). -/
def PromptDir : Type := String → Option String

namespace PromptStore

/-- Embedding of `PromptStore.read` (prompt_store.py 13-18): raise
FileNotFoundError when the resolved path is not a regular file, otherwise
return the file's text with surrounding whitespace stripped. -/
def read (store : PromptDir) (name : String) : Except String String :=
  match store name with
  | none => Except.error ("Prompt file not found: " ++ name)
  | some s => Except.ok (pyStrip s)

end PromptStore

/-- Built-in perfect-score fallback prompt (control_code.py 137-142),
verbatim. -/
def builtinPerfectPrompt : String :=
  "The autograder awarded a perfect score. Congratulate the student briefly. THEN examine Professor Instructions: ask guiding questions only if the code violates a requirement (e.g. banned libraries, time complexity). Otherwise add no further guidance."

/-- Built-in default/guided fallback prompt (control_code.py 144),
verbatim. -/
def builtinDefaultPrompt : String :=
  "You are a strict reviewer that reads inputs only in this order: autograder results → assignment spec → prior feedback → the student’s C code, prioritizing autograder failures and never contradicting the spec or prior feedback; if evidence is missing, state “uncertain” rather than guessing.Report 1–4test-relevant issues (e.g., logic, API misuse, memory/UB) with short reflection-style notes or conceptual nudges only.Do not give answers, fixes, code snippets, step-by-step repairs, or inferred variable names/intent, and do not ask questions."

/-- Outcome of the prompt-selection block: the system prompt chosen and
whether the FileNotFoundError fallback path (a warning, not a fatal error)
was taken. -/
structure PromptChoice where
  system_prompt : String
  usedFallback : Bool
deriving DecidableEq

/-- Embedding of the prompt-selection block of `main` (control_code.py
129-145): read the perfect or default template from the store according to
the Score Detector's verdict; on FileNotFoundError substitute the matching
built-in string and continue. -/
def resolveSystemPrompt (store : PromptDir) (perfect : Bool)
    (promptPerfectName promptDefaultName : String) : PromptChoice :=
  match PromptStore.read store (if perfect then promptPerfectName else promptDefaultName) with
  | Except.ok s => ⟨s, false⟩
  | Except.error _ =>
    ⟨if perfect then builtinPerfectPrompt else builtinDefaultPrompt, true⟩

/-- C4: if the selected prompt file exists, the system instruction equals
that file's whitespace-trimmed text; if it is absent, `PromptStore.read`
raises the distinct "not found" condition, the caller substitutes the
corresponding built-in fallback (perfect-score fallback when the score is
perfect, default fallback otherwise), and no fatal error is raised — the
run continues with the fallback prompt. -/
theorem prompt_template_resolution (store : PromptDir) (perfect : Bool)
    (pName dName : String) :
    (∀ s, store (if perfect then pName else dName) = some s →
       resolveSystemPrompt store perfect pName dName = ⟨pyStrip s, false⟩) ∧
    (store (if perfect then pName else dName) = none →
       PromptStore.read store (if perfect then pName else dName) =
         Except.error ("Prompt file not found: " ++ (if perfect then pName else dName)) ∧
       resolveSystemPrompt store perfect pName dName =
         ⟨if perfect then builtinPerfectPrompt else builtinDefaultPrompt, true⟩) := by
  constructor
  · intro s h
    simp [resolveSystemPrompt, PromptStore.read, h]
  · intro h
    constructor
    · simp [PromptStore.read, h]
    · simp [resolveSystemPrompt, PromptStore.read, h]

/-- C4 (witness): resolution at a concrete one-file store (file present)
and at the empty store (file absent). -/
theorem prompt_template_resolution_witness :
    resolveSystemPrompt
        (fun n => if n = "system_default.md" then some "  hi\n" else none)
        false "system_perfect.md" "system_default.md" = ⟨pyStrip "  hi\n", false⟩ ∧
    resolveSystemPrompt (fun _ => none) true "system_perfect.md" "system_default.md" =
      ⟨builtinPerfectPrompt, true⟩ :=
  ⟨(prompt_template_resolution
      (fun n => if n = "system_default.md" then some "  hi\n" else none)
      false "system_perfect.md" "system_default.md").1 "  hi\n" (by decide),
   ((prompt_template_resolution (fun _ => none) true
      "system_perfect.md" "system_default.md").2 rfl).2⟩

/- ──────────────── History Retriever (control_code.py 114-124) ──────────── -/

/-- The WHERE clause of the history query: rows of the feedback table with
this repository name and reviewed = 1. -/
def reviewedFor (rows : List FeedbackRow) (repo : String) : List FeedbackRow :=
  rows.filter fun r => r.repo_name == repo && r.reviewed

/-- ORDER BY reviewed_at DESC, as a total preorder on rows. -/
def recentLE (a b : FeedbackRow) : Prop := b.reviewed_at ≤ a.reviewed_at

instance : DecidableRel recentLE := fun a b => Nat.decLe b.reviewed_at a.reviewed_at

instance : IsTotal FeedbackRow recentLE :=
  ⟨fun a b => Nat.le_total b.reviewed_at a.reviewed_at⟩

instance : IsTrans FeedbackRow recentLE :=
  ⟨fun _ _ _ hab hbc => le_trans hbc hab⟩

/-- Embedding of the history query (control_code.py 114-123): SELECT ...
WHERE repo_name = ? AND reviewed = 1 ORDER BY reviewed_at DESC LIMIT 3. -/
def past_fb (rows : List FeedbackRow) (repo : String) : List FeedbackRow :=
  (List.insertionSort recentLE (reviewedFor rows repo)).take 3

/-- Python truthiness filter `if row[0]` over a fetched teacher_comments
cell: NULL and the empty string are dropped. -/
def commentKeep : Option String → Option String
  | some c => if c = "" then none else some c
  | none => none

/-- Python `"\n\n".join(...) or "None so far."`: the join of the kept
comments, or the sentinel when nothing survives. -/
def joinOrDefault (cs : List String) : String :=
  if cs.isEmpty then "None so far." else String.intercalate "\n\n" cs

/-- Embedding of the prior-feedback computation (control_code.py 114-124). -/
def prior_feedback (rows : List FeedbackRow) (repo : String) : String :=
  joinOrDefault ((past_fb rows repo).filterMap fun r => commentKeep r.teacher_comments)

/-- Rows with distinct reviewed timestamps. -/
def atNe (a b : FeedbackRow) : Prop := a.reviewed_at ≠ b.reviewed_at

instance : DecidableRel atNe :=
  fun a b => inferInstanceAs (Decidable (a.reviewed_at ≠ b.reviewed_at))

/-- Strictly more recently reviewed. -/
def moreRecent (a b : FeedbackRow) : Prop := b.reviewed_at < a.reviewed_at

instance : DecidableRel moreRecent := fun a b => Nat.decLt b.reviewed_at a.reviewed_at

/-- Specification-side characterisation of "the k most recent rows of R":
a list of the right length, strictly descending by reviewed timestamp,
drawn from R, such that every row of R outside it was reviewed earlier than
everything in it. -/
def isMostRecent (k : Nat) (sel R : List FeedbackRow) : Prop :=
  sel.length = min k R.length ∧
  List.Pairwise moreRecent sel ∧
  (∀ x ∈ sel, x ∈ R) ∧
  ∀ y ∈ R, y ∉ sel → ∀ x ∈ sel, y.reviewed_at < x.reviewed_at

instance (k : Nat) (sel R : List FeedbackRow) : Decidable (isMostRecent k sel R) :=
  inferInstanceAs (Decidable (sel.length = min k R.length ∧
    List.Pairwise moreRecent sel ∧
    (∀ x ∈ sel, x ∈ R) ∧
    ∀ y ∈ R, y ∉ sel → ∀ x ∈ sel, y.reviewed_at < x.reviewed_at))

theorem nodup_of_moreRecent {sel : List FeedbackRow}
    (h : List.Pairwise moreRecent sel) : sel.Nodup :=
  h.imp fun hab => by
    rintro rfl
    exact lt_irrefl _ hab

/-- What the query computes satisfies the specification-side
characterisation, provided the timestamps are distinct. -/
theorem take_isMostRecent (k : Nat) (R : List FeedbackRow)
    (hdist : R.Pairwise atNe) :
    isMostRecent k ((List.insertionSort recentLE R).take k) R := by
  have hperm : (List.insertionSort recentLE R).Perm R := List.perm_insertionSort recentLE R
  have hsorted : List.Sorted recentLE (List.insertionSort recentLE R) :=
    List.sorted_insertionSort recentLE R
  have hdistL : (List.insertionSort recentLE R).Pairwise atNe :=
    (hperm.pairwise_iff fun h => h.symm).mpr hdist
  have hstrict : (List.insertionSort recentLE R).Pairwise moreRecent :=
    (hsorted.and hdistL).imp fun h => lt_of_le_of_ne h.1 (Ne.symm h.2)
  refine ⟨?_, ?_, ?_, ?_⟩
  · rw [List.length_take, hperm.length_eq]
  · exact List.Pairwise.sublist (List.take_sublist k _) hstrict
  · intro x hx
    exact hperm.mem_iff.mp (List.mem_of_mem_take hx)
  · intro y hyR hyTake x hx
    have hyL : y ∈ List.insertionSort recentLE R := hperm.mem_iff.mpr hyR
    have hsplit := List.take_append_drop k (List.insertionSort recentLE R)
    have hyDrop : y ∈ (List.insertionSort recentLE R).drop k := by
      rcases List.mem_append.mp (by rw [hsplit]; exact hyL) with h | h
      · exact absurd h hyTake
      · exact h
    have hstrict2 : List.Pairwise moreRecent
        (List.take k (List.insertionSort recentLE R) ++
          List.drop k (List.insertionSort recentLE R)) := by
      rw [hsplit]
      exact hstrict
    exact (List.pairwise_append.mp hstrict2).2.2 x hx y hyDrop

/-- The characterisation is categorical: any two candidate "k most recent"
lists coincide. -/
theorem isMostRecent_unique (k : Nat) (R sel1 sel2 : List FeedbackRow)
    (h1 : isMostRecent k sel1 R) (h2 : isMostRecent k sel2 R) : sel1 = sel2 := by
  obtain ⟨hl1, hs1, hsub1, hdom1⟩ := h1
  obtain ⟨hl2, hs2, hsub2, hdom2⟩ := h2
  have key : ∀ sA sB : List FeedbackRow,
      sA.length = min k R.length → sB.length = min k R.length →
      List.Pairwise moreRecent sA → List.Pairwise moreRecent sB →
      (∀ x ∈ sA, x ∈ R) → (∀ x ∈ sB, x ∈ R) →
      (∀ y ∈ R, y ∉ sA → ∀ x ∈ sA, y.reviewed_at < x.reviewed_at) →
      (∀ y ∈ R, y ∉ sB → ∀ x ∈ sB, y.reviewed_at < x.reviewed_at) →
      sA ⊆ sB := by
    intro sA sB hlA hlB hsA hsB hsubA hsubB hdomA hdomB x hx
    by_contra hxB
    by_cases hBA : sB ⊆ sA
    · have hsp : sB.Subperm sA := List.subperm_of_subset (nodup_of_moreRecent hsB) hBA
      have hpm : sB.Perm sA := hsp.perm_of_length_le (le_of_eq (hlA.trans hlB.symm))
      exact hxB (hpm.symm.mem_iff.mp hx)
    · rw [List.subset_def] at hBA
      push_neg at hBA
      obtain ⟨y, hyB, hyA⟩ := hBA
      have hlt1 : y.reviewed_at < x.reviewed_at := hdomA y (hsubB y hyB) hyA x hx
      have hlt2 : x.reviewed_at < y.reviewed_at := hdomB x (hsubA x hx) hxB y hyB
      exact absurd hlt1 (Nat.lt_asymm hlt2)
  have hAB : sel1 ⊆ sel2 := key sel1 sel2 hl1 hl2 hs1 hs2 hsub1 hsub2 hdom1 hdom2
  have hsp : sel1.Subperm sel2 := List.subperm_of_subset (nodup_of_moreRecent hs1) hAB
  have hpm : sel1.Perm sel2 := hsp.perm_of_length_le (le_of_eq (hl2.trans hl1.symm))
  have : IsAntisymm FeedbackRow moreRecent :=
    ⟨fun _ _ hab hba => absurd hab (Nat.lt_asymm hba)⟩
  exact List.eq_of_perm_of_sorted hpm hs1 hs2

/-- When every selected row carries a non-empty comment, the truthiness
filter keeps each one unchanged. -/
theorem filterMap_commentKeep (sel : List FeedbackRow)
    (h : ∀ r ∈ sel, ∃ c, r.teacher_comments = some c ∧ c ≠ "") :
    (sel.filterMap fun r => commentKeep r.teacher_comments) =
      sel.map fun r => r.teacher_comments.getD "" := by
  induction sel with
  | nil => rfl
  | cons r rest ih =>
    obtain ⟨c, hc, hcne⟩ := h r (List.mem_cons_self _ _)
    rw [List.filterMap_cons, List.map_cons]
    have hck : commentKeep r.teacher_comments = some c := by
      rw [hc]
      simp [commentKeep, hcne]
    rw [hck, ih fun a ha => h a (List.mem_cons_of_mem _ ha)]
    have hgd : r.teacher_comments.getD "" = c := by
      rw [hc]
      rfl
    rw [hgd]

/-- C6: the History Retriever returns the "no history" sentinel for a
repository with no reviewed feedback rows; and for a repository with 5
reviewed rows (distinct reviewed timestamps, each of the 3 most recent
carrying a non-empty teacher comment) it returns exactly the teacher
comments of the 3 most recent reviewed rows, newest first, joined with
blank-line separation. -/
theorem history_retriever (rows : List FeedbackRow) (repo : String) :
    (reviewedFor rows repo = [] → prior_feedback rows repo = "None so far.") ∧
    (∀ sel : List FeedbackRow,
       (reviewedFor rows repo).Pairwise atNe →
       (reviewedFor rows repo).length = 5 →
       isMostRecent 3 sel (reviewedFor rows repo) →
       (∀ r ∈ sel, ∃ c, r.teacher_comments = some c ∧ c ≠ "") →
       prior_feedback rows repo =
         String.intercalate "\n\n" (sel.map fun r => r.teacher_comments.getD "")) := by
  constructor
  · intro h
    unfold prior_feedback past_fb
    rw [h]
    rfl
  · intro sel hdist hlen hsel hcom
    have htake := take_isMostRecent 3 (reviewedFor rows repo) hdist
    have heq : (List.insertionSort recentLE (reviewedFor rows repo)).take 3 = sel :=
      isMostRecent_unique 3 (reviewedFor rows repo) _ sel htake hsel
    unfold prior_feedback past_fb
    rw [heq, filterMap_commentKeep sel hcom]
    have hlen3 : sel.length = 3 := by
      rw [hsel.1, hlen]
      decide
    cases sel with
    | nil => simp at hlen3
    | cons a l =>
      rw [List.map_cons]
      rfl

/-- C6 (witness): the empty-history branch at a repository with no rows,
and the 5-row branch at a concrete table. -/
theorem history_retriever_witness :
    prior_feedback [⟨9, "other", "f", "t", true, some "c", 1⟩] "repo42" = "None so far." ∧
    prior_feedback
        [⟨1, "repo42", "f1", "t", true, some "c1", 1⟩,
         ⟨2, "repo42", "f2", "t", true, some "c2", 2⟩,
         ⟨3, "repo42", "f3", "t", true, some "c3", 3⟩,
         ⟨4, "repo42", "f4", "t", true, some "c4", 4⟩,
         ⟨5, "repo42", "f5", "t", true, some "c5", 5⟩] "repo42" =
      String.intercalate "\n\n"
        (([⟨5, "repo42", "f5", "t", true, some "c5", 5⟩,
           ⟨4, "repo42", "f4", "t", true, some "c4", 4⟩,
           ⟨3, "repo42", "f3", "t", true, some "c3", 3⟩] :
            List FeedbackRow).map fun r => r.teacher_comments.getD "") :=
  ⟨(history_retriever [⟨9, "other", "f", "t", true, some "c", 1⟩] "repo42").1 (by decide),
   (history_retriever
      [⟨1, "repo42", "f1", "t", true, some "c1", 1⟩,
       ⟨2, "repo42", "f2", "t", true, some "c2", 2⟩,
       ⟨3, "repo42", "f3", "t", true, some "c3", 3⟩,
       ⟨4, "repo42", "f4", "t", true, some "c4", 4⟩,
       ⟨5, "repo42", "f5", "t", true, some "c5", 5⟩] "repo42").2
     [⟨5, "repo42", "f5", "t", true, some "c5", 5⟩,
      ⟨4, "repo42", "f4", "t", true, some "c4", 4⟩,
      ⟨3, "repo42", "f3", "t", true, some "c3", 3⟩]
     (by decide) (by decide) (by decide)
     (by
       intro r hr
       simp only [List.mem_cons, List.not_mem_nil, or_false] at hr
       rcases hr with rfl | rfl | rfl
       · exact ⟨"c5", rfl, by decide⟩
       · exact ⟨"c4", rfl, by decide⟩
       · exact ⟨"c3", rfl, by decide⟩)⟩

/-- C10: the LIMIT 3 is applied in SQL before Python's truthiness filter
drops empty or NULL comments — when the 3 most recent reviewed rows of a
repository all have empty or NULL teacher comments, the "no history"
sentinel is returned even though reviewed rows exist and an older row
carries a non-empty comment that is never retrieved. -/
theorem history_limit_before_filter (rows : List FeedbackRow) (repo : String)
    (sel : List FeedbackRow)
    (hdist : (reviewedFor rows repo).Pairwise atNe)
    (hsel : isMostRecent 3 sel (reviewedFor rows repo))
    (hempty : ∀ r ∈ sel, r.teacher_comments = none ∨ r.teacher_comments = some "")
    (holder : ∃ r ∈ reviewedFor rows repo, ∃ c, r.teacher_comments = some c ∧ c ≠ "") :
    prior_feedback rows repo = "None so far." := by
  have htake := take_isMostRecent 3 (reviewedFor rows repo) hdist
  have heq : (List.insertionSort recentLE (reviewedFor rows repo)).take 3 = sel :=
    isMostRecent_unique 3 (reviewedFor rows repo) _ sel htake hsel
  unfold prior_feedback past_fb
  rw [heq]
  have hnone : (sel.filterMap fun r => commentKeep r.teacher_comments) = [] := by
    rw [List.filterMap_eq_nil_iff]
    intro r hr
    rcases hempty r hr with h | h <;> rw [h] <;> rfl
  rw [hnone]
  rfl

/-- C10 (witness): five reviewed rows whose three most recent comments are
NULL, empty and NULL; the sentinel is returned although older rows hold
comments. -/
theorem history_limit_before_filter_witness :
    prior_feedback
        [⟨1, "repo42", "f1", "t", true, some "c1", 1⟩,
         ⟨2, "repo42", "f2", "t", true, some "c2", 2⟩,
         ⟨3, "repo42", "f3", "t", true, none, 3⟩,
         ⟨4, "repo42", "f4", "t", true, some "", 4⟩,
         ⟨5, "repo42", "f5", "t", true, none, 5⟩] "repo42" = "None so far." :=
  history_limit_before_filter
    [⟨1, "repo42", "f1", "t", true, some "c1", 1⟩,
     ⟨2, "repo42", "f2", "t", true, some "c2", 2⟩,
     ⟨3, "repo42", "f3", "t", true, none, 3⟩,
     ⟨4, "repo42", "f4", "t", true, some "", 4⟩,
     ⟨5, "repo42", "f5", "t", true, none, 5⟩] "repo42"
    [⟨5, "repo42", "f5", "t", true, none, 5⟩,
     ⟨4, "repo42", "f4", "t", true, some "", 4⟩,
     ⟨3, "repo42", "f3", "t", true, none, 3⟩]
    (by decide) (by decide)
    (by
      intro r hr
      simp only [List.mem_cons, List.not_mem_nil, or_false] at hr
      rcases hr with rfl | rfl | rfl
      · exact Or.inl rfl
      · exact Or.inr rfl
      · exact Or.inl rfl)
    ⟨⟨2, "repo42", "f2", "t", true, some "c2", 2⟩, by decide, "c2", rfl, by decide⟩
